import Mathlib

/-!
Verification of the character-JSON validator and JSON tree viewer of the
`eliza-agent` repository.

The validator (`src/lib/schema.ts`) is the zod schema `characterSchema`
together with `formatZodError` and the `validateFile` handler; the tree
viewer is `src/components/JsonViewer.tsx`.  Both are embedded shallowly:
JSON values become the inductive type `Json`, each zod combinator
application in `characterSchema` becomes one Lean function returning the
list of zod issues together with the parsed output, and the viewer's
per-node rendering logic becomes pure functions over `Json`.
-/

/-- JSON values as produced by the host `JSON.parse`: null, booleans,
numbers, strings, arrays, and objects (ordered key/value lists, first
binding wins on lookup, mirroring JS property access).  The numeric
payload is an abstract integer; neither the validator nor the viewer
computes with numbers. -/
inductive Json where
  | null : Json
  | bool : Bool → Json
  | num : Int → Json
  | str : String → Json
  | arr : List Json → Json
  | obj : List (String × Json) → Json

/-- Property lookup on a JS object: the first binding with the given key. -/
def jlookup : List (String × Json) → String → Option Json
  | [], _ => none
  | (k, v) :: rest, key => if k == key then some v else jlookup rest key

/-- One zod issue: the field path (keys and stringified indices), the
human-readable message and the machine error code, exactly the three
components `formatZodError` extracts from a `ZodError`. -/
structure ZIssue where
  path : List String
  message : String
  code : String
deriving DecidableEq

/-- An error as returned by `formatZodError`: the `.`-joined path, the
message, and the code. -/
structure FormattedError where
  path : String
  message : String
  code : String
deriving DecidableEq

/-- zod's `getParsedType` on a JSON value (the `received` part of an
`invalid_type` issue). -/
def typeName : Json → String
  | .null => "null"
  | .bool _ => "boolean"
  | .num _ => "number"
  | .str _ => "string"
  | .arr _ => "array"
  | .obj _ => "object"

/-- zod `invalid_type` issue for a present value of the wrong type. -/
def typeIssue (path : List String) (expected received : String) : ZIssue :=
  ⟨path, "Expected " ++ expected ++ ", received " ++ received, "invalid_type"⟩

/-- zod issue for a missing required object field (received `undefined`). -/
def requiredIssue (path : List String) : ZIssue :=
  ⟨path, "Required", "invalid_type"⟩

/-- zod `too_small` issue produced by `.min(1)` on an array. -/
def tooSmallIssue (path : List String) : ZIssue :=
  ⟨path, "Array must contain at least 1 element(s)", "too_small"⟩

/-- `z.string()`: accept exactly strings, echoing the input on success. -/
def parseStringZ (path : List String) (j : Json) : List ZIssue × Json :=
  match j with
  | .str s => ([], .str s)
  | v => ([typeIssue path "string" (typeName v)], v)

/-- The element loop of `z.array(el)`: every element is parsed (zod does
not short-circuit), each at path extended with its decimal index. -/
def parseElemsZ (elemParse : List String → Json → List ZIssue × Json)
    (path : List String) (i : Nat) : List Json → List ZIssue × List Json
  | [] => ([], [])
  | x :: xs =>
    let r := elemParse (path ++ [Nat.repr i]) x
    let rest := parseElemsZ elemParse path (i + 1) xs
    (r.1 ++ rest.1, r.2 :: rest.2)

/-- `z.array(el)` (with `.min(minLen)` when `minLen > 0`): a non-array is
an `invalid_type` issue; otherwise the `too_small` check runs first (as in
zod's `ZodArray._parse`) and then every element is parsed. -/
def parseArrayZ (elemParse : List String → Json → List ZIssue × Json)
    (minLen : Nat) (path : List String) (j : Json) : List ZIssue × Json :=
  match j with
  | .arr xs =>
    let minIssues := if xs.length < minLen then [tooSmallIssue path] else []
    let r := parseElemsZ elemParse path 0 xs
    (minIssues ++ r.1, .arr r.2)
  | v => ([typeIssue path "array" (typeName v)], v)

/-- One field of a `z.object` shape: its key, whether it is required
(i.e. not wrapped in `.optional()`), and the parser for its value. -/
structure FieldSpec where
  key : String
  required : Bool
  fparse : List String → Json → List ZIssue × Json

/-- The shape loop of `z.object`: fields are processed in shape
declaration order; a present field is parsed at `path ++ [key]`, a missing
required field yields the `Required` issue, a missing optional field is
skipped (and absent from the output, as in zod). -/
def parseFieldsZ : List FieldSpec → List String → List (String × Json) →
    List ZIssue × List (String × Json)
  | [], _, _ => ([], [])
  | sp :: rest, path, fs =>
    let r : List ZIssue × List (String × Json) :=
      match jlookup fs sp.key with
      | some v =>
        let q := sp.fparse (path ++ [sp.key]) v
        (q.1, [(sp.key, q.2)])
      | none =>
        if sp.required then ([requiredIssue (path ++ [sp.key])], []) else ([], [])
    let restR := parseFieldsZ rest path fs
    (r.1 ++ restR.1, r.2 ++ restR.2)

/-- The keys of a `z.object` shape. -/
def specKeys (specs : List FieldSpec) : List String :=
  specs.map (fun sp => sp.key)

/-- The unknown-key collection of a `.passthrough()` object: the input
bindings whose key is not a shape key, in input order. -/
def dropKnownKeys (ks : List String) : List (String × Json) → List (String × Json)
  | [] => []
  | kv :: rest =>
    if ks.contains kv.1 then dropKnownKeys ks rest
    else kv :: dropKnownKeys ks rest

/-- `z.object(shape)`: a non-object is an `invalid_type` issue; otherwise
the shape fields are parsed and, in `.passthrough()` mode, the unknown
input keys are appended to the output unchanged (default mode strips
them). -/
def parseObjectZ (specs : List FieldSpec) (passthrough : Bool)
    (path : List String) (j : Json) : List ZIssue × Json :=
  match j with
  | .obj fs =>
    let r := parseFieldsZ specs path fs
    let extras := if passthrough then dropKnownKeys (specKeys specs) fs else []
    (r.1, .obj (r.2 ++ extras))
  | v => ([typeIssue path "object" (typeName v)], v)

/-- The entry loop of `z.record(z.string())`: every value must be a
string, checked at `path ++ [key]`, preserving entry order. -/
def parseRecordFieldsZ (path : List String) :
    List (String × Json) → List ZIssue × List (String × Json)
  | [] => ([], [])
  | (k, v) :: fs =>
    let r := parseStringZ (path ++ [k]) v
    let rest := parseRecordFieldsZ path fs
    (r.1 ++ rest.1, (k, r.2) :: rest.2)

/-- `z.record(z.string())` (the `settings.secrets` schema). -/
def parseRecordStringZ (path : List String) (j : Json) : List ZIssue × Json :=
  match j with
  | .obj fs =>
    let r := parseRecordFieldsZ path fs
    (r.1, .obj r.2)
  | v => ([typeIssue path "object" (typeName v)], v)

/-- Shape of a message-example turn's `content`:
`z.object({ text: z.string(), action: z.string().optional() })`. -/
def contentShape : List FieldSpec :=
  [⟨"text", true, parseStringZ⟩, ⟨"action", false, parseStringZ⟩]

/-- Parser for a turn's `content` object. -/
def parseContentZ : List String → Json → List ZIssue × Json :=
  parseObjectZ contentShape false

/-- Shape of one message-example turn:
`z.object({ user: z.string(), content: ... })`. -/
def turnShape : List FieldSpec :=
  [⟨"user", true, parseStringZ⟩, ⟨"content", true, parseContentZ⟩]

/-- Parser for one message-example turn. -/
def parseTurnZ : List String → Json → List ZIssue × Json :=
  parseObjectZ turnShape false

/-- Shape of `settings.voice`: `z.object({ model: z.string() })`. -/
def voiceShape : List FieldSpec :=
  [⟨"model", true, parseStringZ⟩]

/-- Parser for `settings.voice`. -/
def parseVoiceZ : List String → Json → List ZIssue × Json :=
  parseObjectZ voiceShape false

/-- Shape of `settings`: optional `secrets` record and optional `voice`,
in `.passthrough()` mode. -/
def settingsShape : List FieldSpec :=
  [⟨"secrets", false, parseRecordStringZ⟩, ⟨"voice", false, parseVoiceZ⟩]

/-- Parser for `settings` (passthrough object). -/
def parseSettingsZ : List String → Json → List ZIssue × Json :=
  parseObjectZ settingsShape true

/-- `z.array(z.string()).min(1)`. -/
def parseStringListMin1 : List String → Json → List ZIssue × Json :=
  parseArrayZ parseStringZ 1

/-- `z.array(z.string())` (no minimum; used by `plugins`, `knowledge`). -/
def parseStringList : List String → Json → List ZIssue × Json :=
  parseArrayZ parseStringZ 0

/-- Shape of `style`: three required non-empty string lists. -/
def styleShape : List FieldSpec :=
  [⟨"all", true, parseStringListMin1⟩, ⟨"chat", true, parseStringListMin1⟩,
   ⟨"post", true, parseStringListMin1⟩]

/-- Parser for `style`. -/
def parseStyleZ : List String → Json → List ZIssue × Json :=
  parseObjectZ styleShape false

/-- `messageExamples`: `z.array(z.array(turn).min(1)).min(1)`. -/
def parseMessageExamplesZ : List String → Json → List ZIssue × Json :=
  parseArrayZ (parseArrayZ parseTurnZ 1) 1

/-- The top-level shape of `characterSchema` from `src/lib/schema.ts`,
fields in source declaration order. -/
def characterSchema : List FieldSpec :=
  [⟨"name", true, parseStringZ⟩,
   ⟨"plugins", false, parseStringList⟩,
   ⟨"clients", true, parseStringListMin1⟩,
   ⟨"modelProvider", true, parseStringZ⟩,
   ⟨"settings", false, parseSettingsZ⟩,
   ⟨"system", false, parseStringZ⟩,
   ⟨"bio", true, parseStringListMin1⟩,
   ⟨"lore", true, parseStringListMin1⟩,
   ⟨"messageExamples", true, parseMessageExamplesZ⟩,
   ⟨"postExamples", true, parseStringListMin1⟩,
   ⟨"adjectives", true, parseStringListMin1⟩,
   ⟨"topics", true, parseStringListMin1⟩,
   ⟨"knowledge", false, parseStringList⟩,
   ⟨"style", true, parseStyleZ⟩]

/-- `characterSchema.parse(json)`: the validated object on success, the
collected issue list when any issue was produced (zod throws the
`ZodError` carrying all of them). -/
def characterSchemaParse (j : Json) : Except (List ZIssue) Json :=
  let r := parseObjectZ characterSchema false [] j
  if r.1.isEmpty then Except.ok r.2 else Except.error r.1

/-- `formatZodError` from `src/lib/schema.ts`: maps every issue to its
`.`-joined path, message and code. -/
def formatZodError (es : List ZIssue) : List FormattedError :=
  es.map (fun e => ⟨String.intercalate "." e.path, e.message, e.code⟩)

/-- The `validateFile` handler of `src/lib/schema.ts` after the host file
read: its input is the result of `JSON.parse` (`none` models a parse
exception), its output is the final `(character, errors)` state pair.  A
parse failure yields the single synthetic `file` error; a schema failure
yields `formatZodError` of the issues; success sets the character and no
errors. -/
def validateFile (parsed : Option Json) :
    Option Json × Option (List FormattedError) :=
  match parsed with
  | none => (none, some [⟨"file", "Invalid JSON format", "custom"⟩])
  | some j =>
    match characterSchemaParse j with
    | .ok out => (some out, none)
    | .error es => (none, some (formatZodError es))

/-! ## The tree viewer (`src/components/JsonViewer.tsx`) -/

/-- The JS `typeof` operator on a JSON value; note `typeof null` is
`"object"`. -/
def typeofJs : Json → String
  | .null => "object"
  | .bool _ => "boolean"
  | .num _ => "number"
  | .str _ => "string"
  | .arr _ => "object"
  | .obj _ => "object"

/-- `JsonNode`'s `type`: `Array.isArray(value) ? "array" : typeof value`. -/
def nodeType (v : Json) : String :=
  match v with
  | .arr _ => "array"
  | _ => typeofJs v

/-- The guard of `JsonNode`'s early return:
`type !== "object" && type !== "array"`. -/
def isPrimitiveNode (v : Json) : Bool :=
  nodeType v != "object" && nodeType v != "array"

/-- `useState(initialExpanded || isRoot)`: the initial expansion state of
a `JsonNode` given its `initialExpanded` prop (default `false`) and its
`isRoot` prop (default `false`; `true` only for the root mounted by
`JsonViewer`). -/
def initialExpandedState (initialExpanded isRoot : Bool) : Bool :=
  initialExpanded || isRoot

/-- The node's only state transition: `setIsExpanded(!isExpanded)`. -/
def toggleExpanded (b : Bool) : Bool := !b

/-- `getValueDisplay`: the type-styled value text of a node. -/
def getValueDisplay (v : Json) : String :=
  match v with
  | .null => "null"
  | .str s => "\"" ++ s ++ "\""
  | .num n => toString n
  | .bool b => if b then "true" else "false"
  | .arr xs => "Array(" ++ Nat.repr xs.length ++ ")"
  | .obj fs => "Object\x7b" ++ Nat.repr fs.length ++ "\x7d"

/-- The `(name, value)` pairs of child `JsonNode`s an array spawns:
`value.map((item, index) => ...)`, each named by its decimal index. -/
def arrayChildEntriesFrom (i : Nat) : List Json → List (String × Json)
  | [] => []
  | x :: xs => (Nat.repr i, x) :: arrayChildEntriesFrom (i + 1) xs

/-- Child entries of an array node, indices starting at `0`. -/
def arrayChildEntries (xs : List Json) : List (String × Json) :=
  arrayChildEntriesFrom 0 xs

/-- Whether the node renders the clickable `►`/`▼` expand/collapse
control: exactly when the early primitive return is not taken. -/
def hasToggle (v : Json) : Bool :=
  !(isPrimitiveNode v)

/-- The child nodes actually rendered for a node with value `v` in
expansion state `expanded`.  `none` models a thrown `TypeError`: a
non-array value that is not a JS object reaches `Object.entries(value)`
when expanded — this happens exactly for `null`, whose `typeof` is
`"object"`.  Primitive-branch nodes render no children markup at all, and
a collapsed composite renders none. -/
def visibleChildren (v : Json) (expanded : Bool) :
    Option (List (String × Json)) :=
  if isPrimitiveNode v then some []
  else if expanded then
    match v with
    | .arr xs => some (arrayChildEntries xs)
    | .obj fs => some fs
    | _ => none
  else some []

/-! ## Deep equality of JSON values

The spec's "deep-equal" (JS structural equality of JSON values): equal
scalars, pointwise deep-equal arrays, and objects with the same key set
whose values at each key are deep-equal — key order is irrelevant, as for
JS objects. -/

/-- Deep equality of JSON values: scalar equality, pointwise equality of
arrays, and key-set equality plus pointwise deep equality of the values
at each key for objects. -/
inductive DeepEq : Json → Json → Prop where
  | null : DeepEq .null .null
  | bool (b : Bool) : DeepEq (.bool b) (.bool b)
  | num (n : Int) : DeepEq (.num n) (.num n)
  | str (s : String) : DeepEq (.str s) (.str s)
  | arr (xs ys : List Json) : List.Forall₂ DeepEq xs ys → DeepEq (.arr xs) (.arr ys)
  | obj (fs gs : List (String × Json)) :
      (∀ k, (jlookup fs k).isSome ↔ (jlookup gs k).isSome) →
      (∀ k v w, jlookup fs k = some v → jlookup gs k = some w → DeepEq v w) →
      DeepEq (.obj fs) (.obj gs)

/-- A successful lookup returns a value smaller than the binding list. -/
theorem jlookup_sizeOf (fs : List (String × Json)) (k : String) (v : Json)
    (h : jlookup fs k = some v) : sizeOf v < sizeOf fs := by
  induction fs with
  | nil => simp [jlookup] at h
  | cons kv rest ih =>
    obtain ⟨k2, w⟩ := kv
    by_cases hk : (k2 == k) = true
    · simp [jlookup, hk] at h
      subst h
      simp
      omega
    · simp [jlookup, hk] at h
      have := ih h
      simp
      omega

/-- Pointwise `DeepEq` of a list with itself, given reflexivity on its
members. -/
theorem deepEq_refl_list (xs : List Json)
    (h : ∀ x ∈ xs, DeepEq x x) : List.Forall₂ DeepEq xs xs := by
  induction xs with
  | nil => exact .nil
  | cons x xs ih =>
    exact .cons (h x (by simp)) (ih (fun y hy => h y (by simp [hy])))

/-- Deep equality is reflexive. -/
theorem deepEq_refl : (j : Json) → DeepEq j j
  | .null => .null
  | .bool b => .bool b
  | .num n => .num n
  | .str s => .str s
  | .arr xs => .arr xs xs (deepEq_refl_list xs (fun x _ => deepEq_refl x))
  | .obj fs =>
    .obj fs fs (fun _ => Iff.rfl)
      (fun k v w hv hw => by
        rw [hv] at hw
        cases hw
        have hlt : sizeOf v < sizeOf fs := jlookup_sizeOf fs k v hv
        exact deepEq_refl v)
termination_by j => sizeOf j
decreasing_by
  all_goals simp_wf
  all_goals try omega
  rename_i hmem
  have := List.sizeOf_lt_of_mem hmem
  omega


/-! ## The spec's validation rules (§4.1)

These predicates follow the wording of spec §4.1 and exist to be compared
with the code's validator: a claim quantifying over "JSON values that
satisfy all validation rules of §4.1" is stated with `specValid` as its
hypothesis. -/

/-- Spec: the value is a string. -/
def isStringJ : Json → Bool
  | .str _ => true
  | _ => false

/-- Spec: a list of strings (possibly empty; `plugins`, `knowledge`). -/
def isStringList : Json → Bool
  | .arr xs => xs.all isStringJ
  | _ => false

/-- Spec: a list of strings with at least one element. -/
def isStringList1 : Json → Bool
  | .arr xs => !xs.isEmpty && xs.all isStringJ
  | _ => false

/-- Spec: the required field `k` is present and satisfies `p`. -/
def reqOk (fs : List (String × Json)) (k : String) (p : Json → Bool) : Bool :=
  match jlookup fs k with
  | some v => p v
  | none => false

/-- Spec: the optional field `k`, if present, satisfies `p`. -/
def optOk (fs : List (String × Json)) (k : String) (p : Json → Bool) : Bool :=
  match jlookup fs k with
  | some v => p v
  | none => true

/-- Spec §4.1: a turn's `content` object — required `text` string,
optional `action` string. -/
def specContentOk : Json → Bool
  | .obj cfs => reqOk cfs "text" isStringJ && optOk cfs "action" isStringJ
  | _ => false

/-- Spec §4.1: a message-example turn — a `user` string and a `content`
object. -/
def specTurnOk : Json → Bool
  | .obj tfs => reqOk tfs "user" isStringJ && reqOk tfs "content" specContentOk
  | _ => false

/-- Spec §4.1: `messageExamples` is a list (min length 1) of lists (each
min length 1) of turns. -/
def specMessageExamplesOk : Json → Bool
  | .arr exs =>
    !exs.isEmpty &&
      exs.all (fun ex =>
        match ex with
        | .arr ts => !ts.isEmpty && ts.all specTurnOk
        | _ => false)
  | _ => false

/-- Spec §4.1: `style` has three required non-empty string-list fields. -/
def specStyleOk : Json → Bool
  | .obj sfs =>
    reqOk sfs "all" isStringList1 && reqOk sfs "chat" isStringList1 &&
      reqOk sfs "post" isStringList1
  | _ => false

/-- Spec §4.1: `settings.secrets` is a string-keyed map of strings. -/
def specSecretsOk : Json → Bool
  | .obj m => m.all (fun kv => isStringJ kv.2)
  | _ => false

/-- Spec §4.1: `settings.voice` is an object with a required string
`model`. -/
def specVoiceOk : Json → Bool
  | .obj vfs => reqOk vfs "model" isStringJ
  | _ => false

/-- Spec §4.1: `settings` is an open object optionally containing
`secrets` and `voice`. -/
def specSettingsOk : Json → Bool
  | .obj sfs => optOk sfs "secrets" specSecretsOk && optOk sfs "voice" specVoiceOk
  | _ => false

/-- Spec §4.1, all rules together: the input satisfies every validation
rule of the spec's Schema Validator contract. -/
def specValid : Json → Bool
  | .obj fs =>
    reqOk fs "name" isStringJ &&
    optOk fs "plugins" isStringList &&
    reqOk fs "clients" isStringList1 &&
    reqOk fs "modelProvider" isStringJ &&
    optOk fs "settings" specSettingsOk &&
    optOk fs "system" isStringJ &&
    reqOk fs "bio" isStringList1 &&
    reqOk fs "lore" isStringList1 &&
    reqOk fs "messageExamples" specMessageExamplesOk &&
    reqOk fs "postExamples" isStringList1 &&
    reqOk fs "adjectives" isStringList1 &&
    reqOk fs "topics" isStringList1 &&
    optOk fs "knowledge" isStringList &&
    reqOk fs "style" specStyleOk
  | _ => false

/-! ## Strict-key side condition for deep-equality preservation

zod's default (strip) object mode silently removes unknown keys, so a
valid input whose strictly-validated sub-objects carry extra keys is
accepted but not returned intact.  `strictKeysOk` says the sub-objects
validated in strip mode below the top level — message-example turns,
their `content` objects, `style`, and `settings.voice` — contain only
their declared keys. -/

/-- Every key of the object is among `ks`. -/
def onlyKeysB (fs : List (String × Json)) (ks : List String) : Bool :=
  fs.all (fun kv => ks.contains kv.1)

/-- A turn and its `content` carry only declared keys. -/
def strictTurnKeys : Json → Bool
  | .obj tfs =>
    onlyKeysB tfs ["user", "content"] &&
      (match jlookup tfs "content" with
       | some (.obj cfs) => onlyKeysB cfs ["text", "action"]
       | _ => true)
  | _ => true

/-- The strip-mode sub-objects of the input carry only declared keys. -/
def strictKeysOk : Json → Bool
  | .obj fs =>
    (match jlookup fs "messageExamples" with
     | some (.arr exs) =>
       exs.all (fun ex =>
         match ex with
         | .arr ts => ts.all strictTurnKeys
         | _ => true)
     | _ => true) &&
    (match jlookup fs "style" with
     | some (.obj sfs) => onlyKeysB sfs ["all", "chat", "post"]
     | _ => true) &&
    (match jlookup fs "settings" with
     | some (.obj sfs) =>
       (match jlookup sfs "voice" with
        | some (.obj vfs) => onlyKeysB vfs ["model"]
        | _ => true)
     | _ => true)
  | _ => true

/-! ## Concrete inputs -/

/-- The §8 end-to-end valid example input, as parsed JSON. -/
def ex8Fields : List (String × Json) :=
  [("name", .str "Bot"),
   ("clients", .arr [.str "discord"]),
   ("modelProvider", .str "openai"),
   ("bio", .arr [.str "hi"]),
   ("lore", .arr [.str "l"]),
   ("messageExamples", .arr [.arr [.obj
      [("user", .str "a"), ("content", .obj [("text", .str "hey")])]]]),
   ("postExamples", .arr [.str "p"]),
   ("adjectives", .arr [.str "kind"]),
   ("topics", .arr [.str "t"]),
   ("style", .obj [("all", .arr [.str "x"]), ("chat", .arr [.str "y"]),
                   ("post", .arr [.str "z"])])]

/-- The §8 example with `clients` replaced by the empty list. -/
def ex4Fields : List (String × Json) :=
  [("name", .str "Bot"),
   ("clients", .arr []),
   ("modelProvider", .str "openai"),
   ("bio", .arr [.str "hi"]),
   ("lore", .arr [.str "l"]),
   ("messageExamples", .arr [.arr [.obj
      [("user", .str "a"), ("content", .obj [("text", .str "hey")])]]]),
   ("postExamples", .arr [.str "p"]),
   ("adjectives", .arr [.str "kind"]),
   ("topics", .arr [.str "t"]),
   ("style", .obj [("all", .arr [.str "x"]), ("chat", .arr [.str "y"]),
                   ("post", .arr [.str "z"])])]

/-- The §8 example with the first turn's `content` missing its `text`. -/
def ex9Fields : List (String × Json) :=
  [("name", .str "Bot"),
   ("clients", .arr [.str "discord"]),
   ("modelProvider", .str "openai"),
   ("bio", .arr [.str "hi"]),
   ("lore", .arr [.str "l"]),
   ("messageExamples", .arr [.arr [.obj
      [("user", .str "a"), ("content", .obj [])]]]),
   ("postExamples", .arr [.str "p"]),
   ("adjectives", .arr [.str "kind"]),
   ("topics", .arr [.str "t"]),
   ("style", .obj [("all", .arr [.str "x"]), ("chat", .arr [.str "y"]),
                   ("post", .arr [.str "z"])])]

/-- The §8 example with one unrecognized key inside `style`: it satisfies
every §4.1 rule, but strip mode drops the key from the output. -/
def exC1Fields : List (String × Json) :=
  [("name", .str "Bot"),
   ("clients", .arr [.str "discord"]),
   ("modelProvider", .str "openai"),
   ("bio", .arr [.str "hi"]),
   ("lore", .arr [.str "l"]),
   ("messageExamples", .arr [.arr [.obj
      [("user", .str "a"), ("content", .obj [("text", .str "hey")])]]]),
   ("postExamples", .arr [.str "p"]),
   ("adjectives", .arr [.str "kind"]),
   ("topics", .arr [.str "t"]),
   ("style", .obj [("all", .arr [.str "x"]), ("chat", .arr [.str "y"]),
                   ("post", .arr [.str "z"]), ("extra", .null)])]

/-! ## Claim theorems: error handling and end-to-end scenarios -/

/-- C3: for input text that is not syntactically valid JSON (the
`JSON.parse` step throws, modeled by `none`), `validateFile` produces
exactly one error, with path `file`, message `Invalid JSON format` and
code `custom`, and no validated character value is set. -/
theorem c3_malformed_json_single_file_error :
    validateFile none =
      (none, some [⟨"file", "Invalid JSON format", "custom"⟩]) := rfl

/-- C4: the §8 valid example with `clients := []` is rejected with exactly
one error, whose path is `clients` and whose code is `too_small` (minimum
size violation). -/
theorem c4_empty_clients_single_too_small :
    characterSchemaParse (.obj ex4Fields) = .error [tooSmallIssue ["clients"]] ∧
    formatZodError [tooSmallIssue ["clients"]] =
      [⟨"clients", "Array must contain at least 1 element(s)", "too_small"⟩] :=
  ⟨rfl, rfl⟩

/-- C9: a missing `text` in the first turn of the first message example
yields exactly one error, whose formatted path is the `.`-joined
concatenation of the keys and numeric indices along the nesting:
`messageExamples.0.0.content.text`. -/
theorem c9_nested_list_path :
    characterSchemaParse (.obj ex9Fields) =
      .error [requiredIssue ["messageExamples", "0", "0", "content", "text"]] ∧
    formatZodError [requiredIssue ["messageExamples", "0", "0", "content", "text"]] =
      [⟨"messageExamples.0.0.content.text", "Required", "invalid_type"⟩] :=
  ⟨rfl, rfl⟩

/-! ## Claim theorems: the tree viewer -/

/-- C5 counterexample: the claim says a root created with the "start
expanded" flag `false` starts collapsed; in the code the initial state is
`initialExpanded || isRoot`, so such a root starts expanded. -/
theorem c5_counterexample_root_ignores_flag :
    initialExpandedState false true ≠ false := by decide

/-- C5 (amended): every non-root node starts collapsed (its
`initialExpanded` prop defaults to `false`), and the root always starts
expanded regardless of the caller-supplied flag, because the flag is
OR-ed with `isRoot`. -/
theorem c5_amended_initial_expansion :
    (∀ flag : Bool, initialExpandedState flag true = true) ∧
    initialExpandedState false false = false := by
  constructor
  · intro flag
    cases flag <;> rfl
  · rfl

/-- The rendered child list of an array node has one entry per array
element. -/
theorem arrayChildEntriesFrom_length (xs : List Json) :
    ∀ i : Nat, (arrayChildEntriesFrom i xs).length = xs.length := by
  induction xs with
  | nil => intro i; rfl
  | cons x xs ih =>
    intro i
    simp [arrayChildEntriesFrom, ih]

/-- C6 (code bug): a `string`, `number` or `boolean` node takes the
single-line primitive branch — no expand control, no children in any
state — but a `null` node does not: since `typeof null` is `"object"`,
the code gives `null` an expand/collapse control, and expanding it (which
always happens at the root) reaches `Object.entries(null)`, which throws
a `TypeError` (modeled by `none`).  The claim's statement that `null`
renders as a never-expandable single line is what the code was meant to
do, but not what it does. -/
theorem c6_null_scalar_code_bug :
    (∀ s : String, hasToggle (.str s) = false ∧
      ∀ e : Bool, visibleChildren (.str s) e = some []) ∧
    (∀ n : Int, hasToggle (.num n) = false ∧
      ∀ e : Bool, visibleChildren (.num n) e = some []) ∧
    (∀ b : Bool, hasToggle (.bool b) = false ∧
      ∀ e : Bool, visibleChildren (.bool b) e = some []) ∧
    hasToggle .null = true ∧
    visibleChildren .null true = none := by
  refine ⟨fun s => ⟨rfl, fun e => rfl⟩, fun n => ⟨rfl, fun e => rfl⟩,
    fun b => ⟨rfl, fun e => rfl⟩, rfl, rfl⟩

/-- C7: an object or array node renders the element-count summary
`Array(n)` or `Object{n}` with an expand control; expanded, it shows
exactly one child per array element or object property; collapsed, it
shows none. -/
theorem c7_composite_header_and_children :
    ∀ (xs : List Json) (fs : List (String × Json)),
      getValueDisplay (.arr xs) = "Array(" ++ Nat.repr xs.length ++ ")" ∧
      getValueDisplay (.obj fs) = "Object\x7b" ++ Nat.repr fs.length ++ "\x7d" ∧
      hasToggle (.arr xs) = true ∧
      hasToggle (.obj fs) = true ∧
      (visibleChildren (.arr xs) true).map List.length = some xs.length ∧
      (visibleChildren (.obj fs) true).map List.length = some fs.length ∧
      visibleChildren (.arr xs) false = some [] ∧
      visibleChildren (.obj fs) false = some [] := by
  intro xs fs
  refine ⟨rfl, rfl, rfl, rfl, ?_, rfl, rfl, rfl⟩
  simp [visibleChildren, isPrimitiveNode, nodeType, arrayChildEntries,
    arrayChildEntriesFrom_length]

/-- C8: toggling a node's expansion state twice returns it to its
original state, and hence to its original visible children. -/
theorem c8_toggle_involution :
    ∀ (v : Json) (b : Bool),
      toggleExpanded (toggleExpanded b) = b ∧
      visibleChildren v (toggleExpanded (toggleExpanded b)) =
        visibleChildren v b := by
  intro v b
  have h : toggleExpanded (toggleExpanded b) = b := by cases b <;> rfl
  exact ⟨h, by rw [h]⟩

/-! ## Association-list lemmas -/

/-- A successful lookup comes from a binding of the list. -/
theorem jlookup_mem {fs : List (String × Json)} {k : String} {v : Json}
    (h : jlookup fs k = some v) : (k, v) ∈ fs := by
  induction fs with
  | nil => simp [jlookup] at h
  | cons kv rest ih =>
    obtain ⟨k2, w⟩ := kv
    by_cases hk : (k2 == k) = true
    · simp [jlookup, hk] at h
      rcases eq_of_beq hk with rfl
      simp [h]
    · simp [jlookup, hk] at h
      simp [ih h]

/-- A binding's key is found by lookup (possibly with another value). -/
theorem jlookup_isSome_of_mem {fs : List (String × Json)} {k : String}
    {v : Json} (h : (k, v) ∈ fs) : (jlookup fs k).isSome := by
  induction fs with
  | nil => cases h
  | cons kv rest ih =>
    obtain ⟨k2, w⟩ := kv
    by_cases hk : (k2 == k) = true
    · simp [jlookup, hk]
    · rcases List.mem_cons.1 h with h1 | h2
      · cases h1
        simp at hk
      · simp [jlookup, hk]
        exact ih h2

/-- Lookup in a concatenation, when the left part finds the key. -/
theorem jlookup_append_some {a b : List (String × Json)} {k : String}
    {v : Json} (h : jlookup a k = some v) : jlookup (a ++ b) k = some v := by
  induction a with
  | nil => simp [jlookup] at h
  | cons kv rest ih =>
    obtain ⟨k2, w⟩ := kv
    by_cases hk : (k2 == k) = true
    · simp [jlookup, hk] at h ⊢
      exact h
    · simp [jlookup, hk] at h ⊢
      exact ih h

/-- Lookup in a concatenation, when the left part misses the key. -/
theorem jlookup_append_none {a : List (String × Json)} {k : String}
    (h : jlookup a k = none) (b : List (String × Json)) :
    jlookup (a ++ b) k = jlookup b k := by
  induction a with
  | nil => rfl
  | cons kv rest ih =>
    obtain ⟨k2, w⟩ := kv
    by_cases hk : (k2 == k) = true
    · simp [jlookup, hk] at h
    · simp [jlookup, hk] at h ⊢
      exact ih h

/-- A list none of whose binding keys is `k` has no lookup result at `k`. -/
theorem jlookup_eq_none {fs : List (String × Json)} {k : String}
    (h : ∀ kv ∈ fs, kv.1 ≠ k) : jlookup fs k = none := by
  induction fs with
  | nil => rfl
  | cons kv rest ih =>
    obtain ⟨k2, w⟩ := kv
    have hne : k2 ≠ k := h (k2, w) (by simp)
    have hk : (k2 == k) = false := by simp [hne]
    simp [jlookup, hk]
    exact ih (fun kv hkv => h kv (by simp [hkv]))

/-- Lookup among the unknown-key bindings. -/
theorem jlookup_dropKnownKeys (ks : List String) (fs : List (String × Json))
    (k : String) :
    jlookup (dropKnownKeys ks fs) k =
      if k ∈ ks then none else jlookup fs k := by
  induction fs with
  | nil => simp [dropKnownKeys, jlookup]
  | cons kv rest ih =>
    obtain ⟨k2, w⟩ := kv
    by_cases hk2 : k2 ∈ ks
    · by_cases hk : k2 = k
      · subst hk
        simp [dropKnownKeys, hk2, ih, jlookup]
      · simp [dropKnownKeys, hk2, ih, jlookup, hk]
    · by_cases hk : k2 = k
      · subst hk
        simp [dropKnownKeys, hk2, jlookup]
      · simp [dropKnownKeys, hk2, jlookup, hk, ih]

/-- An unknown-key binding is kept by `dropKnownKeys`. -/
theorem mem_dropKnownKeys {ks : List String} {fs : List (String × Json)}
    {kv : String × Json} (hmem : kv ∈ fs) (hc : ks.contains kv.1 = false) :
    kv ∈ dropKnownKeys ks fs := by
  have hc2 : kv.1 ∉ ks := by simpa using hc
  induction fs with
  | nil => cases hmem
  | cons kv2 rest ih =>
    rcases List.mem_cons.1 hmem with rfl | htail
    · simp [dropKnownKeys, hc2]
    · by_cases hk2 : kv2.1 ∈ ks <;> simp [dropKnownKeys, hk2, ih htail]

/-! ## Lemmas about the shape loop `parseFieldsZ` -/

/-- Every output binding of the shape loop carries a shape key. -/
theorem parseFieldsZ_keys_subset (specs : List FieldSpec) (path : List String)
    (fs : List (String × Json)) :
    ∀ kv ∈ (parseFieldsZ specs path fs).2, kv.1 ∈ specKeys specs := by
  induction specs with
  | nil => intro kv h; simp [parseFieldsZ] at h
  | cons sp rest ih =>
    intro kv h
    simp only [parseFieldsZ] at h
    rcases List.mem_append.1 h with h1 | h2
    · cases hl : jlookup fs sp.key with
      | some v =>
        simp [hl] at h1
        simp [specKeys, h1]
      | none =>
        by_cases hr : sp.required = true <;> simp [hl, hr] at h1
    · simp [specKeys]
      right
      have := ih kv h2
      simpa [specKeys] using this

/-- A shape field present in the input is present in the output. -/
theorem parseFieldsZ_presence (specs : List FieldSpec) (path : List String)
    (fs : List (String × Json)) (sp : FieldSpec) (hmem : sp ∈ specs)
    (hs : (jlookup fs sp.key).isSome) :
    (jlookup (parseFieldsZ specs path fs).2 sp.key).isSome := by
  induction specs with
  | nil => cases hmem
  | cons sp2 rest ih =>
    simp only [parseFieldsZ]
    rcases List.mem_cons.1 hmem with rfl | htail
    · cases hl : jlookup fs sp.key with
      | some v =>
        simp [hl, jlookup]
      | none => simp [hl] at hs
    · by_cases hk : (sp2.key == sp.key) = true
      · cases hl : jlookup fs sp2.key with
        | some v =>
          simp [hl, jlookup, hk]
        | none =>
          rcases eq_of_beq hk with hkeq
          rw [hkeq] at hl
          simp [hl] at hs
      · cases hl : jlookup fs sp2.key with
        | some v =>
          simp [hl, jlookup, hk]
          exact ih htail
        | none =>
          by_cases hr : sp2.required = true <;> simp [hl, hr] <;> exact ih htail

/-- With distinct shape keys, the output value of a present shape field is
its parsed input value. -/
theorem parseFieldsZ_lookup (specs : List FieldSpec) (path : List String)
    (fs : List (String × Json)) (sp : FieldSpec) (v : Json)
    (hnd : (specKeys specs).Nodup) (hmem : sp ∈ specs)
    (hv : jlookup fs sp.key = some v) :
    jlookup (parseFieldsZ specs path fs).2 sp.key =
      some ((sp.fparse (path ++ [sp.key]) v).2) := by
  induction specs with
  | nil => cases hmem
  | cons sp2 rest ih =>
    have hnd2 : (specKeys rest).Nodup := (List.nodup_cons.1 hnd).2
    have hnotin : sp2.key ∉ specKeys rest := (List.nodup_cons.1 hnd).1
    simp only [parseFieldsZ]
    rcases List.mem_cons.1 hmem with rfl | htail
    · simp [hv, jlookup]
    · have hne : sp2.key ≠ sp.key := by
        intro he
        exact hnotin (he ▸ List.mem_map_of_mem (fun s => s.key) htail)
      have hk : (sp2.key == sp.key) = false := by simp [hne]
      cases hl : jlookup fs sp2.key with
      | some w =>
        simp [hl, jlookup, hk]
        exact ih hnd2 htail
      | none =>
        by_cases hr : sp2.required = true <;> simp [hl, hr] <;> exact ih hnd2 htail

/-- A required shape field missing from the input contributes its
`Required` issue to the collected issue list. -/
theorem parseFieldsZ_required_mem (specs : List FieldSpec) (path : List String)
    (fs : List (String × Json)) (sp : FieldSpec) (hmem : sp ∈ specs)
    (hreq : sp.required = true) (hnone : jlookup fs sp.key = none) :
    requiredIssue (path ++ [sp.key]) ∈ (parseFieldsZ specs path fs).1 := by
  induction specs with
  | nil => cases hmem
  | cons sp2 rest ih =>
    simp only [parseFieldsZ]
    rcases List.mem_cons.1 hmem with rfl | htail
    · simp [hnone, hreq]
    · cases hl : jlookup fs sp2.key with
      | some w =>
        simp only [hl]
        exact List.mem_append_right _ (ih htail)
      | none =>
        cases hr : sp2.required <;> simp only [hl, hr] <;>
          simp [List.mem_append, ih htail]

/-- A list holding two distinct members has length at least two. -/
theorem two_le_length_of_mem_mem_ne {α : Type} {a b : α} {l : List α}
    (ha : a ∈ l) (hb : b ∈ l) (hne : a ≠ b) : 2 ≤ l.length := by
  match l with
  | [] => cases ha
  | [x] =>
    simp at ha hb
    exact absurd (ha.trans hb.symm) hne
  | x :: y :: rest =>
    simp only [List.length_cons]
    omega

/-- C2: validation does not stop at the first failure.  For any object
input missing both `name` and `clients`, the error list contains the
`Required` error for each — each tagged with its dotted path, a message
and an error code — so its length is at least two. -/
theorem c2_no_short_circuit (fs : List (String × Json))
    (h1 : jlookup fs "name" = none) (h2 : jlookup fs "clients" = none) :
    (⟨"name", "Required", "invalid_type"⟩ : FormattedError) ∈
      formatZodError (parseObjectZ characterSchema false [] (.obj fs)).1 ∧
    (⟨"clients", "Required", "invalid_type"⟩ : FormattedError) ∈
      formatZodError (parseObjectZ characterSchema false [] (.obj fs)).1 ∧
    2 ≤ (formatZodError (parseObjectZ characterSchema false [] (.obj fs)).1).length := by
  have hn : requiredIssue ["name"] ∈ (parseFieldsZ characterSchema [] fs).1 :=
    parseFieldsZ_required_mem characterSchema [] fs ⟨"name", true, parseStringZ⟩
      (by simp [characterSchema]) rfl h1
  have hc : requiredIssue ["clients"] ∈ (parseFieldsZ characterSchema [] fs).1 :=
    parseFieldsZ_required_mem characterSchema [] fs
      ⟨"clients", true, parseStringListMin1⟩ (by simp [characterSchema]) rfl h2
  have he : (parseObjectZ characterSchema false [] (.obj fs)).1 =
      (parseFieldsZ characterSchema [] fs).1 := rfl
  rw [he]
  refine ⟨List.mem_map_of_mem _ hn, List.mem_map_of_mem _ hc, ?_⟩
  have hlen : (formatZodError (parseFieldsZ characterSchema [] fs).1).length =
      ((parseFieldsZ characterSchema [] fs).1).length := List.length_map _ _
  rw [hlen]
  exact two_le_length_of_mem_mem_ne hn hc (by decide)

/-- Witness for C2 at the concrete input `{}` (both fields missing). -/
theorem c2_no_short_circuit_witness :
    (⟨"name", "Required", "invalid_type"⟩ : FormattedError) ∈
      formatZodError (parseObjectZ characterSchema false [] (.obj [])).1 ∧
    (⟨"clients", "Required", "invalid_type"⟩ : FormattedError) ∈
      formatZodError (parseObjectZ characterSchema false [] (.obj [])).1 ∧
    2 ≤ (formatZodError (parseObjectZ characterSchema false [] (.obj [])).1).length :=
  c2_no_short_circuit [] rfl rfl

/-- C10: an accepted input is an object, the output contains only
declared top-level keys (so unrecognized top-level input keys are absent),
and every unknown key nested inside `settings` is preserved, binding and
all, in the output `settings` object. -/
theorem c10_strip_top_passthrough_settings (j out : Json)
    (h : characterSchemaParse j = .ok out) :
    ∃ fs outs, j = .obj fs ∧ out = .obj outs ∧
      (∀ kv ∈ outs, kv.1 ∈ specKeys characterSchema) ∧
      (∀ sfs, jlookup fs "settings" = some (.obj sfs) →
        ∃ souts, jlookup outs "settings" = some (.obj souts) ∧
          ∀ kv ∈ sfs, (specKeys settingsShape).contains kv.1 = false →
            kv ∈ souts) := by
  cases j with
  | null => simp [characterSchemaParse, parseObjectZ] at h
  | bool b => simp [characterSchemaParse, parseObjectZ] at h
  | num n => simp [characterSchemaParse, parseObjectZ] at h
  | str s => simp [characterSchemaParse, parseObjectZ] at h
  | arr xs => simp [characterSchemaParse, parseObjectZ] at h
  | obj fs =>
    have hr2 : (parseObjectZ characterSchema false [] (.obj fs)).2 =
        .obj (parseFieldsZ characterSchema [] fs).2 := by
      simp [parseObjectZ]
    by_cases hemp : (parseObjectZ characterSchema false [] (.obj fs)).1.isEmpty
    · rw [characterSchemaParse, if_pos hemp] at h
      have hout : out = (parseObjectZ characterSchema false [] (.obj fs)).2 := by
        cases h
        rfl
      rw [hr2] at hout
      refine ⟨fs, (parseFieldsZ characterSchema [] fs).2, rfl, hout, ?_, ?_⟩
      · exact parseFieldsZ_keys_subset characterSchema [] fs
      · intro sfs hset
        have hset2 := parseFieldsZ_lookup characterSchema [] fs
          ⟨"settings", false, parseSettingsZ⟩ (.obj sfs)
          (by decide) (by simp [characterSchema]) hset
        refine ⟨(parseFieldsZ settingsShape ["settings"] sfs).2 ++
          dropKnownKeys (specKeys settingsShape) sfs, hset2, ?_⟩
        intro kv hkv hc
        exact List.mem_append_right _ (mem_dropKnownKeys hkv hc)
    · rw [characterSchemaParse, if_neg hemp] at h
      cases h

/-- Witness input for C10: the §8 example with an unrecognized top-level
key and a `settings` object holding an unknown `theme` key. -/
def exC10Fields : List (String × Json) :=
  [("name", .str "Bot"),
   ("unknownTop", .num 7),
   ("clients", .arr [.str "discord"]),
   ("modelProvider", .str "openai"),
   ("settings", .obj [("theme", .str "dark"),
                      ("voice", .obj [("model", .str "m")])]),
   ("bio", .arr [.str "hi"]),
   ("lore", .arr [.str "l"]),
   ("messageExamples", .arr [.arr [.obj
      [("user", .str "a"), ("content", .obj [("text", .str "hey")])]]]),
   ("postExamples", .arr [.str "p"]),
   ("adjectives", .arr [.str "kind"]),
   ("topics", .arr [.str "t"]),
   ("style", .obj [("all", .arr [.str "x"]), ("chat", .arr [.str "y"]),
                   ("post", .arr [.str "z"])])]

/-- The validated output for `exC10Fields`: `unknownTop` is stripped,
`settings` keeps the unknown `theme` key. -/
def exC10Out : List (String × Json) :=
  [("name", .str "Bot"),
   ("clients", .arr [.str "discord"]),
   ("modelProvider", .str "openai"),
   ("settings", .obj [("voice", .obj [("model", .str "m")]),
                      ("theme", .str "dark")]),
   ("bio", .arr [.str "hi"]),
   ("lore", .arr [.str "l"]),
   ("messageExamples", .arr [.arr [.obj
      [("user", .str "a"), ("content", .obj [("text", .str "hey")])]]]),
   ("postExamples", .arr [.str "p"]),
   ("adjectives", .arr [.str "kind"]),
   ("topics", .arr [.str "t"]),
   ("style", .obj [("all", .arr [.str "x"]), ("chat", .arr [.str "y"]),
                   ("post", .arr [.str "z"])])]

/-- Witness for C10 at `exC10Fields`. -/
theorem c10_strip_top_passthrough_settings_witness :
    ∃ fs outs, Json.obj exC10Fields = .obj fs ∧ Json.obj exC10Out = .obj outs ∧
      (∀ kv ∈ outs, kv.1 ∈ specKeys characterSchema) ∧
      (∀ sfs, jlookup fs "settings" = some (.obj sfs) →
        ∃ souts, jlookup outs "settings" = some (.obj souts) ∧
          ∀ kv ∈ sfs, (specKeys settingsShape).contains kv.1 = false →
            kv ∈ souts) :=
  c10_strip_top_passthrough_settings (.obj exC10Fields) (.obj exC10Out) rfl

/-! ## Success lemmas for the combinators -/

/-- A shape is clean on an input object when every present shape field
parses without issues and every missing shape field is optional. -/
def FieldsClean (specs : List FieldSpec) (path : List String)
    (fs : List (String × Json)) : Prop :=
  ∀ sp ∈ specs,
    (∀ v, jlookup fs sp.key = some v → (sp.fparse (path ++ [sp.key]) v).1 = []) ∧
    (jlookup fs sp.key = none → sp.required = false)

/-- A shape preserves an input object when every present shape field
parses to a deep-equal output. -/
def FieldsDeepEq (specs : List FieldSpec) (path : List String)
    (fs : List (String × Json)) : Prop :=
  ∀ sp ∈ specs, ∀ v, jlookup fs sp.key = some v →
    DeepEq ((sp.fparse (path ++ [sp.key]) v).2) v

/-- A clean shape loop collects no issues. -/
theorem parseFieldsZ_clean {specs : List FieldSpec} {path : List String}
    {fs : List (String × Json)} (h : FieldsClean specs path fs) :
    (parseFieldsZ specs path fs).1 = [] := by
  induction specs with
  | nil => rfl
  | cons sp rest ih =>
    have hsp := h sp (by simp)
    have hrest : FieldsClean rest path fs := fun s hs => h s (by simp [hs])
    simp only [parseFieldsZ]
    cases hl : jlookup fs sp.key with
    | some v => simp [hsp.1 v hl, ih hrest]
    | none => simp [hl, hsp.2 hl, ih hrest]

/-- Every binding the shape loop outputs comes from a deep-equal input
binding. -/
theorem parseFieldsZ_pointwise {specs : List FieldSpec} {path : List String}
    {fs : List (String × Json)} (h : FieldsDeepEq specs path fs) :
    ∀ kv ∈ (parseFieldsZ specs path fs).2,
      ∃ w, jlookup fs kv.1 = some w ∧ DeepEq kv.2 w := by
  induction specs with
  | nil => intro kv hkv; simp [parseFieldsZ] at hkv
  | cons sp rest ih =>
    have hsp := h sp (by simp)
    have hrest : FieldsDeepEq rest path fs := fun s hs => h s (by simp [hs])
    intro kv hkv
    simp only [parseFieldsZ] at hkv
    rcases List.mem_append.1 hkv with h1 | h2
    · cases hl : jlookup fs sp.key with
      | some v =>
        simp [hl] at h1
        subst h1
        exact ⟨v, hl, hsp v hl⟩
      | none =>
        cases hr : sp.required <;> simp [hl, hr] at h1
    · exact ih hrest kv h2

/-- A clean object parse collects no issues, in either unknown-key mode. -/
theorem parseObjectZ_clean {specs : List FieldSpec} (passthrough : Bool)
    {path : List String} {fs : List (String × Json)}
    (h : FieldsClean specs path fs) :
    (parseObjectZ specs passthrough path (.obj fs)).1 = [] := by
  simp [parseObjectZ, parseFieldsZ_clean h]

/-- `ks.contains k` on strings decides membership. -/
theorem contains_eq_true_iff_mem {ks : List String} {k : String} :
    ks.contains k = true ↔ k ∈ ks := by
  simp

/-- A strip-mode object parse whose input has only shape keys returns a
deep-equal object. -/
theorem parseObjectZ_strip_deepEq {specs : List FieldSpec}
    {path : List String} {fs : List (String × Json)}
    (honly : ∀ kv ∈ fs, kv.1 ∈ specKeys specs)
    (hde : FieldsDeepEq specs path fs) :
    DeepEq ((parseObjectZ specs false path (.obj fs)).2) (.obj fs) := by
  have hout : (parseObjectZ specs false path (.obj fs)).2 =
      .obj (parseFieldsZ specs path fs).2 := by
    simp [parseObjectZ]
  rw [hout]
  refine DeepEq.obj _ _ ?_ ?_
  · intro k
    constructor
    · intro hs
      obtain ⟨v, hv⟩ := Option.isSome_iff_exists.1 hs
      obtain ⟨w, hw, _⟩ := parseFieldsZ_pointwise hde (k, v) (jlookup_mem hv)
      exact Option.isSome_iff_exists.2 ⟨w, hw⟩
    · intro hs
      obtain ⟨v, hv⟩ := Option.isSome_iff_exists.1 hs
      have hk : k ∈ specKeys specs := honly (k, v) (jlookup_mem hv)
      obtain ⟨sp, hsp, hspk⟩ := List.mem_map.1 hk
      subst hspk
      exact parseFieldsZ_presence specs path fs sp hsp
        (Option.isSome_iff_exists.2 ⟨v, hv⟩)
  · intro k v w hv hw
    obtain ⟨w2, hw2, hde2⟩ := parseFieldsZ_pointwise hde (k, v) (jlookup_mem hv)
    rw [hw] at hw2
    cases hw2
    exact hde2

/-- A passthrough object parse returns a deep-equal object. -/
theorem parseObjectZ_pass_deepEq {specs : List FieldSpec}
    {path : List String} {fs : List (String × Json)}
    (hde : FieldsDeepEq specs path fs) :
    DeepEq ((parseObjectZ specs true path (.obj fs)).2) (.obj fs) := by
  have hout : (parseObjectZ specs true path (.obj fs)).2 =
      .obj ((parseFieldsZ specs path fs).2 ++
        dropKnownKeys (specKeys specs) fs) := by
    simp [parseObjectZ]
  rw [hout]
  refine DeepEq.obj _ _ ?_ ?_
  · intro k
    constructor
    · intro hs
      obtain ⟨v, hv⟩ := Option.isSome_iff_exists.1 hs
      cases hl0 : jlookup (parseFieldsZ specs path fs).2 k with
      | some v0 =>
        obtain ⟨w, hw, _⟩ := parseFieldsZ_pointwise hde (k, v0) (jlookup_mem hl0)
        exact Option.isSome_iff_exists.2 ⟨w, hw⟩
      | none =>
        rw [jlookup_append_none hl0, jlookup_dropKnownKeys] at hv
        by_cases hc : k ∈ specKeys specs
        · rw [if_pos hc] at hv
          cases hv
        · rw [if_neg hc] at hv
          exact Option.isSome_iff_exists.2 ⟨v, hv⟩
    · intro hs
      obtain ⟨v, hv⟩ := Option.isSome_iff_exists.1 hs
      cases hl0 : jlookup (parseFieldsZ specs path fs).2 k with
      | some v0 =>
        exact Option.isSome_iff_exists.2 ⟨v0, jlookup_append_some hl0⟩
      | none =>
        by_cases hc : k ∈ specKeys specs
        · obtain ⟨sp, hsp, hspk⟩ := List.mem_map.1 hc
          subst hspk
          have := parseFieldsZ_presence specs path fs sp hsp
            (Option.isSome_iff_exists.2 ⟨v, hv⟩)
          rw [hl0] at this
          cases this
        · rw [jlookup_append_none hl0, jlookup_dropKnownKeys, if_neg hc]
          exact Option.isSome_iff_exists.2 ⟨v, hv⟩
  · intro k v w hv hw
    cases hl0 : jlookup (parseFieldsZ specs path fs).2 k with
    | some v0 =>
      rw [jlookup_append_some hl0] at hv
      cases hv
      obtain ⟨w2, hw2, hde2⟩ := parseFieldsZ_pointwise hde (k, v) (jlookup_mem hl0)
      rw [hw] at hw2
      cases hw2
      exact hde2
    | none =>
      rw [jlookup_append_none hl0, jlookup_dropKnownKeys] at hv
      by_cases hc : k ∈ specKeys specs
      · rw [if_pos hc] at hv
        cases hv
      · rw [if_neg hc] at hv
        rw [hv] at hw
        cases hw
        exact deepEq_refl v

/-- `z.string()` echoes a string input with no issues. -/
theorem parseStringZ_ok {v : Json} (path : List String)
    (h : isStringJ v = true) : parseStringZ path v = ([], v) := by
  cases v
  case str s => rfl
  all_goals simp [isStringJ] at h

/-- The element loop over a list of strings echoes it with no issues. -/
theorem parseElemsZ_strings {xs : List Json} (path : List String)
    (h : xs.all isStringJ = true) :
    ∀ i, parseElemsZ parseStringZ path i xs = ([], xs) := by
  induction xs with
  | nil => intro i; rfl
  | cons x rest ih =>
    intro i
    simp only [List.all_cons, Bool.and_eq_true] at h
    simp [parseElemsZ, parseStringZ_ok _ h.1, ih h.2]

/-- `z.array(z.string())` echoes any list of strings. -/
theorem parseStringList_ok {v : Json} (path : List String)
    (h : isStringList v = true) : parseStringList path v = ([], v) := by
  cases v <;> simp [isStringList] at h
  rename_i xs
  simp [parseStringList, parseArrayZ, parseElemsZ_strings path (by simpa using h)]

/-- `z.array(z.string()).min(1)` echoes any non-empty list of strings. -/
theorem parseStringListMin1_ok {v : Json} (path : List String)
    (h : isStringList1 v = true) : parseStringListMin1 path v = ([], v) := by
  cases v <;> simp [isStringList1] at h
  rename_i xs
  obtain ⟨hne, hall⟩ := h
  have hlen : ¬ xs.length < 1 := by
    cases xs with
    | nil => simp at hne
    | cons a as => simp
  simp [parseStringListMin1, parseArrayZ, hlen,
    parseElemsZ_strings path (by simpa using hall)]

/-- The record loop over string values echoes the bindings. -/
theorem parseRecordFieldsZ_strings {m : List (String × Json)}
    (path : List String) (h : m.all (fun kv => isStringJ kv.2) = true) :
    parseRecordFieldsZ path m = ([], m) := by
  induction m with
  | nil => rfl
  | cons kv rest ih =>
    obtain ⟨k, v⟩ := kv
    simp only [List.all_cons, Bool.and_eq_true] at h
    simp [parseRecordFieldsZ, parseStringZ_ok _ h.1, ih h.2]

/-- `z.record(z.string())` echoes a string-valued object. -/
theorem parseRecordStringZ_ok {v : Json} (path : List String)
    (h : specSecretsOk v = true) : parseRecordStringZ path v = ([], v) := by
  cases v <;> simp [specSecretsOk] at h
  rename_i m
  simp [parseRecordStringZ, parseRecordFieldsZ_strings path (by simpa using h)]

/-- A spec-conforming `content` value parses without issues. -/
theorem parseContentZ_clean {c : Json} (path : List String)
    (hspec : specContentOk c = true) : (parseContentZ path c).1 = [] := by
  cases c <;> simp [specContentOk] at hspec
  rename_i cfs
  obtain ⟨ht, ha⟩ := hspec
  apply parseObjectZ_clean
  intro sp hsp
  simp only [contentShape, List.mem_cons, List.mem_singleton] at hsp
  rcases hsp with rfl | rfl | hsp
  · constructor
    · intro v hv
      simp only [reqOk, hv] at ht
      simp [parseStringZ_ok _ ht]
    · intro hnone
      simp [reqOk, hnone] at ht
  · constructor
    · intro v hv
      simp only [optOk, hv] at ha
      simp [parseStringZ_ok _ ha]
    · intro hnone
      rfl
  · cases hsp

/-- A spec-conforming `content` object with only declared keys parses to
a deep-equal value. -/
theorem parseContentZ_deepEq {cfs : List (String × Json)} (path : List String)
    (hspec : specContentOk (.obj cfs) = true)
    (hkeys : onlyKeysB cfs ["text", "action"] = true) :
    DeepEq ((parseContentZ path (.obj cfs)).2) (.obj cfs) := by
  simp only [specContentOk, Bool.and_eq_true] at hspec
  obtain ⟨ht, ha⟩ := hspec
  apply parseObjectZ_strip_deepEq
  · intro kv hkv
    simp only [onlyKeysB, List.all_eq_true] at hkeys
    have := hkeys kv hkv
    simpa [specKeys, contentShape] using this
  · intro sp hsp v hv
    simp only [contentShape, List.mem_cons, List.mem_singleton] at hsp
    rcases hsp with rfl | rfl | hsp
    · simp only [reqOk, hv] at ht
      simp only [parseStringZ_ok _ ht]
      exact deepEq_refl v
    · simp only [optOk, hv] at ha
      simp only [parseStringZ_ok _ ha]
      exact deepEq_refl v
    · cases hsp

/-- A spec-conforming turn parses without issues. -/
theorem parseTurnZ_clean {t : Json} (path : List String)
    (hspec : specTurnOk t = true) : (parseTurnZ path t).1 = [] := by
  cases t <;> simp [specTurnOk] at hspec
  rename_i tfs
  obtain ⟨hu, hc⟩ := hspec
  apply parseObjectZ_clean
  intro sp hsp
  simp only [turnShape, List.mem_cons, List.mem_singleton] at hsp
  rcases hsp with rfl | rfl | hsp
  · constructor
    · intro v hv
      simp only [reqOk, hv] at hu
      simp [parseStringZ_ok _ hu]
    · intro hnone
      simp [reqOk, hnone] at hu
  · constructor
    · intro v hv
      simp only [reqOk, hv] at hc
      exact parseContentZ_clean _ hc
    · intro hnone
      simp [reqOk, hnone] at hc
  · cases hsp

/-- A spec-conforming turn with only declared keys (in itself and its
`content`) parses to a deep-equal value. -/
theorem parseTurnZ_deepEq {tfs : List (String × Json)} (path : List String)
    (hspec : specTurnOk (.obj tfs) = true)
    (hkeys : strictTurnKeys (.obj tfs) = true) :
    DeepEq ((parseTurnZ path (.obj tfs)).2) (.obj tfs) := by
  simp only [specTurnOk, Bool.and_eq_true] at hspec
  obtain ⟨hu, hc⟩ := hspec
  simp only [strictTurnKeys, Bool.and_eq_true] at hkeys
  obtain ⟨hk1, hk2⟩ := hkeys
  apply parseObjectZ_strip_deepEq
  · intro kv hkv
    simp only [onlyKeysB, List.all_eq_true] at hk1
    have := hk1 kv hkv
    simpa [specKeys, turnShape] using this
  · intro sp hsp v hv
    simp only [turnShape, List.mem_cons, List.mem_singleton] at hsp
    rcases hsp with rfl | rfl | hsp
    · simp only [reqOk, hv] at hu
      simp only [parseStringZ_ok _ hu]
      exact deepEq_refl v
    · simp only [reqOk, hv] at hc
      rw [hv] at hk2
      cases v <;> simp [specContentOk] at hc
      rename_i cfs
      have hc2 : specContentOk (.obj cfs) = true := by
        simp [specContentOk, Bool.and_eq_true, hc.1, hc.2]
      exact parseContentZ_deepEq _ hc2 (by simpa using hk2)
    · cases hsp

/-- A spec-conforming `voice` value parses without issues. -/
theorem parseVoiceZ_clean {v : Json} (path : List String)
    (hspec : specVoiceOk v = true) : (parseVoiceZ path v).1 = [] := by
  cases v <;> simp [specVoiceOk] at hspec
  rename_i vfs
  apply parseObjectZ_clean
  intro sp hsp
  simp only [voiceShape, List.mem_singleton] at hsp
  subst hsp
  constructor
  · intro v hv
    simp only [reqOk, hv] at hspec
    simp [parseStringZ_ok _ hspec]
  · intro hnone
    simp [reqOk, hnone] at hspec

/-- A spec-conforming `voice` object with only its declared key parses to
a deep-equal value. -/
theorem parseVoiceZ_deepEq {vfs : List (String × Json)} (path : List String)
    (hspec : specVoiceOk (.obj vfs) = true)
    (hkeys : onlyKeysB vfs ["model"] = true) :
    DeepEq ((parseVoiceZ path (.obj vfs)).2) (.obj vfs) := by
  simp only [specVoiceOk] at hspec
  apply parseObjectZ_strip_deepEq
  · intro kv hkv
    simp only [onlyKeysB, List.all_eq_true] at hkeys
    have := hkeys kv hkv
    simpa [specKeys, voiceShape] using this
  · intro sp hsp v hv
    simp only [voiceShape, List.mem_singleton] at hsp
    subst hsp
    simp only [reqOk, hv] at hspec
    simp only [parseStringZ_ok _ hspec]
    exact deepEq_refl v

/-- A spec-conforming `style` value parses without issues. -/
theorem parseStyleZ_clean {s : Json} (path : List String)
    (hspec : specStyleOk s = true) : (parseStyleZ path s).1 = [] := by
  cases s <;> simp [specStyleOk] at hspec
  rename_i sfs
  obtain ⟨⟨hall, hchat⟩, hpost⟩ := hspec
  apply parseObjectZ_clean
  intro sp hsp
  simp only [styleShape, List.mem_cons, List.mem_singleton] at hsp
  rcases hsp with rfl | rfl | rfl | hsp
  · exact ⟨fun v hv => by
      simp only [reqOk, hv] at hall
      simp [parseStringListMin1_ok _ hall],
    fun hnone => by simp [reqOk, hnone] at hall⟩
  · exact ⟨fun v hv => by
      simp only [reqOk, hv] at hchat
      simp [parseStringListMin1_ok _ hchat],
    fun hnone => by simp [reqOk, hnone] at hchat⟩
  · exact ⟨fun v hv => by
      simp only [reqOk, hv] at hpost
      simp [parseStringListMin1_ok _ hpost],
    fun hnone => by simp [reqOk, hnone] at hpost⟩
  · cases hsp

/-- A spec-conforming `style` object with only declared keys parses to a
deep-equal value. -/
theorem parseStyleZ_deepEq {sfs : List (String × Json)} (path : List String)
    (hspec : specStyleOk (.obj sfs) = true)
    (hkeys : onlyKeysB sfs ["all", "chat", "post"] = true) :
    DeepEq ((parseStyleZ path (.obj sfs)).2) (.obj sfs) := by
  simp only [specStyleOk, Bool.and_eq_true] at hspec
  obtain ⟨⟨hall, hchat⟩, hpost⟩ := hspec
  apply parseObjectZ_strip_deepEq
  · intro kv hkv
    simp only [onlyKeysB, List.all_eq_true] at hkeys
    have := hkeys kv hkv
    simpa [specKeys, styleShape] using this
  · intro sp hsp v hv
    simp only [styleShape, List.mem_cons, List.mem_singleton] at hsp
    rcases hsp with rfl | rfl | rfl | hsp
    · simp only [reqOk, hv] at hall
      simp only [parseStringListMin1_ok _ hall]
      exact deepEq_refl v
    · simp only [reqOk, hv] at hchat
      simp only [parseStringListMin1_ok _ hchat]
      exact deepEq_refl v
    · simp only [reqOk, hv] at hpost
      simp only [parseStringListMin1_ok _ hpost]
      exact deepEq_refl v
    · cases hsp

/-- A spec-conforming `settings` value parses without issues. -/
theorem parseSettingsZ_clean {s : Json} (path : List String)
    (hspec : specSettingsOk s = true) : (parseSettingsZ path s).1 = [] := by
  cases s <;> simp [specSettingsOk] at hspec
  rename_i sfs
  obtain ⟨hsec, hvo⟩ := hspec
  apply parseObjectZ_clean
  intro sp hsp
  simp only [settingsShape, List.mem_cons, List.mem_singleton] at hsp
  rcases hsp with rfl | rfl | hsp
  · constructor
    · intro v hv
      simp only [optOk, hv] at hsec
      simp [parseRecordStringZ_ok _ hsec]
    · intro hnone
      rfl
  · constructor
    · intro v hv
      simp only [optOk, hv] at hvo
      exact parseVoiceZ_clean _ hvo
    · intro hnone
      rfl
  · cases hsp

/-- A spec-conforming `settings` object whose `voice` (if an object) has
only its declared key parses to a deep-equal value; unknown `settings`
keys pass through. -/
theorem parseSettingsZ_deepEq {sfs : List (String × Json)} (path : List String)
    (hspec : specSettingsOk (.obj sfs) = true)
    (hkeys : (match jlookup sfs "voice" with
              | some (.obj vfs) => onlyKeysB vfs ["model"]
              | _ => true) = true) :
    DeepEq ((parseSettingsZ path (.obj sfs)).2) (.obj sfs) := by
  simp only [specSettingsOk, Bool.and_eq_true] at hspec
  obtain ⟨hsec, hvo⟩ := hspec
  apply parseObjectZ_pass_deepEq
  intro sp hsp v hv
  simp only [settingsShape, List.mem_cons, List.mem_singleton] at hsp
  rcases hsp with rfl | rfl | hsp
  · simp only [optOk, hv] at hsec
    simp only [parseRecordStringZ_ok _ hsec]
    exact deepEq_refl v
  · simp only [optOk, hv] at hvo
    rw [hv] at hkeys
    cases v <;> simp [specVoiceOk] at hvo
    rename_i vfs
    have hvo2 : specVoiceOk (.obj vfs) = true := by
      simp [specVoiceOk, hvo]
    exact parseVoiceZ_deepEq _ hvo2 (by simpa using hkeys)
  · cases hsp

/-- A clean element loop collects no issues. -/
theorem parseElemsZ_clean {elemParse : List String → Json → List ZIssue × Json}
    {xs : List Json} (path : List String)
    (h : ∀ x ∈ xs, ∀ p, (elemParse p x).1 = []) :
    ∀ i, (parseElemsZ elemParse path i xs).1 = [] := by
  induction xs with
  | nil => intro i; rfl
  | cons x rest ih =>
    intro i
    simp [parseElemsZ, h x (by simp) _,
      ih (fun y hy p => h y (by simp [hy]) p) (i + 1)]

/-- An element loop whose elements parse deep-equal outputs a pointwise
deep-equal list. -/
theorem parseElemsZ_deepEq {elemParse : List String → Json → List ZIssue × Json}
    {xs : List Json} (path : List String)
    (h : ∀ x ∈ xs, ∀ p, DeepEq ((elemParse p x).2) x) :
    ∀ i, List.Forall₂ DeepEq (parseElemsZ elemParse path i xs).2 xs := by
  induction xs with
  | nil => intro i; exact .nil
  | cons x rest ih =>
    intro i
    exact .cons (h x (by simp) _)
      (ih (fun y hy p => h y (by simp [hy]) p) (i + 1))

/-- An array parse with clean elements and satisfied minimum collects no
issues. -/
theorem parseArrayZ_clean {elemParse : List String → Json → List ZIssue × Json}
    {xs : List Json} (minLen : Nat) (path : List String)
    (h : ∀ x ∈ xs, ∀ p, (elemParse p x).1 = [])
    (hlen : ¬ xs.length < minLen) :
    (parseArrayZ elemParse minLen path (.arr xs)).1 = [] := by
  simp [parseArrayZ, hlen, parseElemsZ_clean path h 0]

/-- An array parse with deep-equal elements outputs a deep-equal array. -/
theorem parseArrayZ_deepEq {elemParse : List String → Json → List ZIssue × Json}
    {xs : List Json} (minLen : Nat) (path : List String)
    (h : ∀ x ∈ xs, ∀ p, DeepEq ((elemParse p x).2) x) :
    DeepEq ((parseArrayZ elemParse minLen path (.arr xs)).2) (.arr xs) := by
  have : (parseArrayZ elemParse minLen path (.arr xs)).2 =
      .arr (parseElemsZ elemParse path 0 xs).2 := by
    simp [parseArrayZ]
  rw [this]
  exact DeepEq.arr _ _ (parseElemsZ_deepEq path h 0)

/-- A spec-conforming `messageExamples` value parses without issues. -/
theorem parseMessageExamplesZ_clean {m : Json} (path : List String)
    (hspec : specMessageExamplesOk m = true) :
    (parseMessageExamplesZ path m).1 = [] := by
  cases m <;> simp [specMessageExamplesOk] at hspec
  rename_i exs
  obtain ⟨hne, hall⟩ := hspec
  have hlen : ¬ exs.length < 1 := by
    cases exs with
    | nil => simp at hne
    | cons a as => simp
  apply parseArrayZ_clean 1 path _ hlen
  intro ex hex p
  have hx := hall ex hex
  cases ex <;> simp at hx
  rename_i ts
  obtain ⟨htne, htall⟩ := hx
  have htlen : ¬ ts.length < 1 := by
    cases ts with
    | nil => simp at htne
    | cons a as => simp
  apply parseArrayZ_clean 1 p _ htlen
  intro t ht p2
  exact parseTurnZ_clean p2 (htall t ht)

/-- A spec-conforming `messageExamples` value whose turns carry only
declared keys parses to a deep-equal value. -/
theorem parseMessageExamplesZ_deepEq {exs : List Json} (path : List String)
    (hspec : specMessageExamplesOk (.arr exs) = true)
    (hkeys : (exs.all (fun ex =>
        match ex with
        | .arr ts => ts.all strictTurnKeys
        | _ => true)) = true) :
    DeepEq ((parseMessageExamplesZ path (.arr exs)).2) (.arr exs) := by
  simp only [specMessageExamplesOk, Bool.and_eq_true] at hspec
  obtain ⟨hne, hall⟩ := hspec
  simp only [List.all_eq_true] at hall hkeys
  apply parseArrayZ_deepEq 1 path
  intro ex hex p
  have hx := hall ex hex
  have hk := hkeys ex hex
  cases ex <;> simp at hx
  rename_i ts
  obtain ⟨htne, htall⟩ := hx
  simp only [List.all_eq_true] at hk
  apply parseArrayZ_deepEq 1 p
  intro t ht p2
  have hts := htall t ht
  have htk := hk t ht
  cases t <;> simp [specTurnOk] at hts
  rename_i tfs
  have hts2 : specTurnOk (.obj tfs) = true := by
    simp [specTurnOk, hts.1, hts.2]
  exact parseTurnZ_deepEq p2 hts2 htk

/-- A value passing the spec's `settings` rules is an object. -/
theorem specSettingsOk_obj {v : Json} (h : specSettingsOk v = true) :
    ∃ sfs, v = Json.obj sfs := by
  cases v
  case obj sfs => exact ⟨sfs, rfl⟩
  all_goals simp [specSettingsOk] at h

/-- A value passing the spec's `style` rules is an object. -/
theorem specStyleOk_obj {v : Json} (h : specStyleOk v = true) :
    ∃ sfs, v = Json.obj sfs := by
  cases v
  case obj sfs => exact ⟨sfs, rfl⟩
  all_goals simp [specStyleOk] at h

/-- A value passing the spec's `messageExamples` rules is an array. -/
theorem specMessageExamplesOk_arr {v : Json}
    (h : specMessageExamplesOk v = true) : ∃ exs, v = Json.arr exs := by
  cases v
  case arr exs => exact ⟨exs, rfl⟩
  all_goals simp [specMessageExamplesOk] at h

/-- C1 (amended): a JSON value satisfying every §4.1 rule is accepted by
the Validator; if additionally its strip-mode sub-objects (message turns,
their `content`, `style`, `settings.voice`) contain only declared keys,
then every field of the returned object is deep-equal to the
corresponding field of the input. -/
theorem c1_valid_and_deepEq (fs : List (String × Json))
    (hspec : specValid (.obj fs) = true) :
    ∃ outs, characterSchemaParse (.obj fs) = .ok (.obj outs) ∧
      (strictKeysOk (.obj fs) = true →
        ∀ kv ∈ outs, ∃ w, jlookup fs kv.1 = some w ∧ DeepEq kv.2 w) := by
  simp only [specValid, Bool.and_eq_true] at hspec
  obtain ⟨⟨⟨⟨⟨⟨⟨⟨⟨⟨⟨⟨⟨hname, hplug⟩, hcli⟩, hmp⟩, hset⟩, hsys⟩, hbio⟩,
    hlore⟩, hmsg⟩, hpost⟩, hadj⟩, htop⟩, hknow⟩, hstyle⟩ := hspec
  have hclean : FieldsClean characterSchema [] fs := by
    intro sp hsp
    simp only [characterSchema, List.mem_cons, List.mem_singleton] at hsp
    rcases hsp with rfl | rfl | rfl | rfl | rfl | rfl | rfl | rfl | rfl |
      rfl | rfl | rfl | rfl | rfl | hsp
    · exact ⟨fun v hv => by
        simp only [reqOk, hv] at hname
        simp [parseStringZ_ok _ hname],
      fun hnone => by simp [reqOk, hnone] at hname⟩
    · exact ⟨fun v hv => by
        simp only [optOk, hv] at hplug
        simp [parseStringList_ok _ hplug],
      fun _ => rfl⟩
    · exact ⟨fun v hv => by
        simp only [reqOk, hv] at hcli
        simp [parseStringListMin1_ok _ hcli],
      fun hnone => by simp [reqOk, hnone] at hcli⟩
    · exact ⟨fun v hv => by
        simp only [reqOk, hv] at hmp
        simp [parseStringZ_ok _ hmp],
      fun hnone => by simp [reqOk, hnone] at hmp⟩
    · exact ⟨fun v hv => by
        simp only [optOk, hv] at hset
        exact parseSettingsZ_clean _ hset,
      fun _ => rfl⟩
    · exact ⟨fun v hv => by
        simp only [optOk, hv] at hsys
        simp [parseStringZ_ok _ hsys],
      fun _ => rfl⟩
    · exact ⟨fun v hv => by
        simp only [reqOk, hv] at hbio
        simp [parseStringListMin1_ok _ hbio],
      fun hnone => by simp [reqOk, hnone] at hbio⟩
    · exact ⟨fun v hv => by
        simp only [reqOk, hv] at hlore
        simp [parseStringListMin1_ok _ hlore],
      fun hnone => by simp [reqOk, hnone] at hlore⟩
    · exact ⟨fun v hv => by
        simp only [reqOk, hv] at hmsg
        exact parseMessageExamplesZ_clean _ hmsg,
      fun hnone => by simp [reqOk, hnone] at hmsg⟩
    · exact ⟨fun v hv => by
        simp only [reqOk, hv] at hpost
        simp [parseStringListMin1_ok _ hpost],
      fun hnone => by simp [reqOk, hnone] at hpost⟩
    · exact ⟨fun v hv => by
        simp only [reqOk, hv] at hadj
        simp [parseStringListMin1_ok _ hadj],
      fun hnone => by simp [reqOk, hnone] at hadj⟩
    · exact ⟨fun v hv => by
        simp only [reqOk, hv] at htop
        simp [parseStringListMin1_ok _ htop],
      fun hnone => by simp [reqOk, hnone] at htop⟩
    · exact ⟨fun v hv => by
        simp only [optOk, hv] at hknow
        simp [parseStringList_ok _ hknow],
      fun _ => rfl⟩
    · exact ⟨fun v hv => by
        simp only [reqOk, hv] at hstyle
        exact parseStyleZ_clean _ hstyle,
      fun hnone => by simp [reqOk, hnone] at hstyle⟩
    · cases hsp
  have herr : (parseObjectZ characterSchema false [] (.obj fs)).1 = [] :=
    parseObjectZ_clean false hclean
  refine ⟨(parseFieldsZ characterSchema [] fs).2, ?_, ?_⟩
  · have h2 : (parseObjectZ characterSchema false [] (.obj fs)).2 =
        .obj (parseFieldsZ characterSchema [] fs).2 := by
      simp [parseObjectZ]
    simp only [characterSchemaParse]
    rw [herr, h2]
    rfl
  · intro hstrict
    simp only [strictKeysOk, Bool.and_eq_true] at hstrict
    obtain ⟨⟨hkmsg, hkstyle⟩, hkset⟩ := hstrict
    have hde : FieldsDeepEq characterSchema [] fs := by
      intro sp hsp v hv
      simp only [characterSchema, List.mem_cons, List.mem_singleton] at hsp
      rcases hsp with rfl | rfl | rfl | rfl | rfl | rfl | rfl | rfl | rfl |
        rfl | rfl | rfl | rfl | rfl | hsp
      · simp only [reqOk, hv] at hname
        simp only [parseStringZ_ok _ hname]
        exact deepEq_refl v
      · simp only [optOk, hv] at hplug
        simp only [parseStringList_ok _ hplug]
        exact deepEq_refl v
      · simp only [reqOk, hv] at hcli
        simp only [parseStringListMin1_ok _ hcli]
        exact deepEq_refl v
      · simp only [reqOk, hv] at hmp
        simp only [parseStringZ_ok _ hmp]
        exact deepEq_refl v
      · simp only [optOk, hv] at hset
        obtain ⟨sfs, rfl⟩ := specSettingsOk_obj hset
        rw [hv] at hkset
        simp only [] at hkset
        exact parseSettingsZ_deepEq _ hset hkset
      · simp only [optOk, hv] at hsys
        simp only [parseStringZ_ok _ hsys]
        exact deepEq_refl v
      · simp only [reqOk, hv] at hbio
        simp only [parseStringListMin1_ok _ hbio]
        exact deepEq_refl v
      · simp only [reqOk, hv] at hlore
        simp only [parseStringListMin1_ok _ hlore]
        exact deepEq_refl v
      · simp only [reqOk, hv] at hmsg
        obtain ⟨exs, rfl⟩ := specMessageExamplesOk_arr hmsg
        rw [hv] at hkmsg
        simp only [] at hkmsg
        exact parseMessageExamplesZ_deepEq _ hmsg hkmsg
      · simp only [reqOk, hv] at hpost
        simp only [parseStringListMin1_ok _ hpost]
        exact deepEq_refl v
      · simp only [reqOk, hv] at hadj
        simp only [parseStringListMin1_ok _ hadj]
        exact deepEq_refl v
      · simp only [reqOk, hv] at htop
        simp only [parseStringListMin1_ok _ htop]
        exact deepEq_refl v
      · simp only [optOk, hv] at hknow
        simp only [parseStringList_ok _ hknow]
        exact deepEq_refl v
      · simp only [reqOk, hv] at hstyle
        obtain ⟨sfs, rfl⟩ := specStyleOk_obj hstyle
        rw [hv] at hkstyle
        simp only [] at hkstyle
        exact parseStyleZ_deepEq _ hstyle hkstyle
      · cases hsp
    exact parseFieldsZ_pointwise hde

/-- The `style` object of the validated output for `exC1Fields`. -/
def exC1StyleOut : Json :=
  .obj [("all", .arr [.str "x"]), ("chat", .arr [.str "y"]),
        ("post", .arr [.str "z"])]

/-- The `style` object of the input `exC1Fields`. -/
def exC1StyleIn : Json :=
  .obj [("all", .arr [.str "x"]), ("chat", .arr [.str "y"]),
        ("post", .arr [.str "z"]), ("extra", .null)]

/-- C1 counterexample: `exC1Fields` satisfies every §4.1 rule and is
accepted, but the returned `style` field is not deep-equal to the input's
`style` field — strip mode silently dropped the unrecognized `extra`
key, so the claim's deep-equality conclusion fails as stated. -/
theorem c1_counterexample_style_extra_key :
    specValid (.obj exC1Fields) = true ∧
    characterSchemaParse (.obj exC1Fields) = .ok (.obj ex8Fields) ∧
    jlookup ex8Fields "style" = some exC1StyleOut ∧
    jlookup exC1Fields "style" = some exC1StyleIn ∧
    ¬ DeepEq exC1StyleOut exC1StyleIn := by
  refine ⟨by decide, rfl, rfl, rfl, ?_⟩
  intro h
  cases h with
  | obj _ _ hkeys _ =>
    exact absurd ((hkeys "extra").mpr (by decide)) (by decide)

/-- Witness for C1 (amended) at the §8 example, which has no unknown
keys anywhere. -/
theorem c1_valid_and_deepEq_witness :
    ∃ outs, characterSchemaParse (.obj ex8Fields) = .ok (.obj outs) ∧
      (strictKeysOk (.obj ex8Fields) = true →
        ∀ kv ∈ outs, ∃ w, jlookup ex8Fields kv.1 = some w ∧ DeepEq kv.2 w) :=
  c1_valid_and_deepEq ex8Fields (by decide)
